import Mathlib

/-!
Verification of the anonymizer backend (`src/backend/server.py`).

Texts are modelled as `List Char`.  Python character classes `\d`, `\s`, `\w`
and `re.IGNORECASE` folding are modelled over the ASCII range (the source's
explicit classes such as `[A-Za-z0-9._%+-]` are ASCII already); Unicode
category membership beyond ASCII is not modelled.
-/

namespace Anonymizer

/-- Half-open character span.  The source field `end` is called `stop` here
because `end` is a Lean keyword. -/
structure Position where
  start : Nat
  stop : Nat
  deriving DecidableEq, Repr

instance : Inhabited Position := ⟨⟨0, 0⟩⟩

/-- The `EntityType` enumeration of `server.py`. -/
inductive EntityType where
  | phone | email | siret | ssn | address | legal | person | organization
  deriving DecidableEq, Repr

/-- The `EntitySource` enumeration of `server.py`. -/
inductive EntitySource where
  | REGEX | NER | OLLAMA | MANUAL
  deriving DecidableEq, Repr

/-- The `Entity` model of `server.py`.  The `id` field (a fresh random UUID per
entity) is not modelled; no claim concerns it.  `confidence` is a rational
standing for the source's float. -/
structure Entity where
  text : List Char
  type : EntityType
  source : EntitySource
  confidence : ℚ
  replacement : List Char
  positions : List Position
  selected : Bool := true
  deriving DecidableEq, Repr

/-- The `ProcessingMode` enumeration (values `standard`, `advanced`, `ollama`). -/
inductive ProcessingMode where
  | standard | advanced | ollama
  deriving DecidableEq, Repr

/-- The `OllamaConfig` model of `server.py`. -/
structure OllamaConfig where
  url : List Char
  model : List Char
  custom_prompt : Option (List Char)
  timeout : Nat
  deriving DecidableEq, Repr

/-- The `ProcessingResponse` model.  The `processing_time` field (wall-clock
seconds) is not modelled. -/
structure ProcessingResponse where
  entities : List Entity
  mode_used : ProcessingMode
  total_occurrences : Nat
  spacy_available : Bool
  ollama_available : Bool
  deriving DecidableEq, Repr

/-- Model of `entity.positions[0]`: on an empty `positions` list the
source would raise, here it defaults to `⟨0, 0⟩`. -/
def pos0 (e : Entity) : Position := e.positions.headI

/-! ## Checksum validator (`RegexService.luhn_check`, server.py lines 130-142) -/

/-- Sum of the decimal digits of `n`, for `n < 100`: models the source's
`sum(digits_of(d*2))` whose argument is at most 18. -/
def digitsSum (n : Nat) : Nat := n / 10 + n % 10

/-- Python slice `l[-1::-2]` of a reversed view: every second element of a
list, starting at its head.  Applied below to the reversed digit list. -/
def everyOther {α : Type} : List α → List α
  | [] => []
  | [a] => [a]
  | a :: _ :: rest => a :: everyOther rest

/-- Digit value of a character (`int(d)` in the source; meaningful on
`'0'..'9'`). -/
def digitVal (c : Char) : Nat := c.toNat - 48

/-- Model of `RegexService.luhn_check` (server.py lines 130-142): `odd_digits` is the
Python slice `digits[-1::-2]`, `even_digits` is `digits[-2::-2]`; each even
digit is doubled and digit-summed. -/
def luhn_check (number : List Char) : Bool :=
  let digits := number.map digitVal
  let odd_digits := everyOther digits.reverse
  let even_digits := everyOther (digits.reverse.drop 1)
  (odd_digits.sum + (even_digits.map (fun d => digitsSum (d * 2))).sum) % 10 == 0

/-- Spec-side restatement of the claimed checksum total (spec §4.2 wording):
walking the digits from the rightmost one, a digit at an odd position
(1st, 3rd, …) is added as-is, a digit at an even position is doubled and
digit-summed before adding. -/
def claimLuhnGo : List Nat → Nat
  | [] => 0
  | [a] => a
  | a :: b :: rest => a + digitsSum (b * 2) + claimLuhnGo rest

/-- The spec §4.2 total over a numeric string. -/
def claimLuhnTotal (number : List Char) : Nat :=
  claimLuhnGo ((number.map digitVal).reverse)

/-! ## Regular-expression engine

The source compiles fixed pattern strings with Python `re`.  The patterns use
only character classes, concatenation, ordered alternation, greedy `?`, greedy
repetition of a single character class (`+`, `*`, `{m,}`), fixed repetition
`{m}` and the word-boundary assertion `\b`.  `Re` is an AST of exactly these
constructs; `mrun` is a backtracking matcher with Python's preference order
(leftmost alternative first, greedy repetition longest-first). -/

inductive Re where
  /-- match one character of the class -/
  | cls (p : Char → Bool)
  /-- concatenation -/
  | seq (r1 r2 : Re)
  /-- ordered alternation (left alternative preferred) -/
  | alt (r1 r2 : Re)
  /-- greedy `?` -/
  | opt (r : Re)
  /-- greedy `*` over a single character class -/
  | star (p : Char → Bool)
  /-- word boundary `\b` -/
  | bnd
  /-- empty pattern -/
  | eps

/-- Python word character (`\w`), ASCII range: letters, digits, underscore. -/
def isWordCh (c : Char) : Bool := c.isAlphanum || c == '_'

/-- Whether the character at index `i` exists and is a word character. -/
def wordAt (text : List Char) (i : Nat) : Bool :=
  match text[i]? with
  | some c => isWordCh c
  | none => false

/-- The `\b` assertion at offset `i`: word-ness differs between the previous
character (none before offset 0) and the current one. -/
def isBoundary (text : List Char) (i : Nat) : Bool :=
  (if i = 0 then false else wordAt text (i - 1)) != wordAt text i

/-- Greedy class-star: consume as many class characters of the suffix as
possible, preferring the longest consumption whose continuation succeeds.
`i` is the absolute offset of the suffix's head. -/
def starRun (p : Char → Bool) (k : Nat → Option Nat) : List Char → Nat → Option Nat
  | [], i => k i
  | c :: rest, i =>
    if p c then (starRun p k rest (i + 1)).orElse (fun _ => k i) else k i

/-- Backtracking matcher: try to match `r` at offset `i` of `text`, calling the
continuation `k` with the offset after the match; returns the first success in
Python's backtracking order. -/
def mrun (text : List Char) : Re → Nat → (Nat → Option Nat) → Option Nat
  | .cls p, i, k =>
    if h : i < text.length then
      if p (text.get ⟨i, h⟩) then k (i + 1) else none
    else none
  | .seq r1 r2, i, k => mrun text r1 i (fun j => mrun text r2 j k)
  | .alt r1 r2, i, k => (mrun text r1 i k).orElse (fun _ => mrun text r2 i k)
  | .opt r, i, k => (mrun text r i k).orElse (fun _ => k i)
  | .star p, i, k => starRun p k (text.drop i) i
  | .bnd, i, k => if isBoundary text i then k i else none
  | .eps, i, k => k i

/-- The `re.finditer` driver: scan offsets left to right, emit the leftmost match,
resume after a non-empty match (after a one-step advance otherwise).  `fuel`
bounds the number of scan steps; the offset strictly increases each step, so
`text.length + 2` steps always suffice. -/
def finditerAux (text : List Char) (r : Re) : Nat → Nat → List (Nat × Nat)
  | 0, _ => []
  | fuel + 1, i =>
    if i ≤ text.length then
      match mrun text r i some with
      | some j => (i, j) :: finditerAux text r fuel (if i < j then j else i + 1)
      | none => finditerAux text r fuel (i + 1)
    else []

/-- All matches of `r` in `text`, leftmost first, as `(start, end)` pairs. -/
def finditer (text : List Char) (r : Re) : List (Nat × Nat) :=
  finditerAux text r (text.length + 2) 0

/-! ### The source's pattern table (server.py lines 100-128) -/

/-- Python `\d` (ASCII). -/
def isDigitCh (c : Char) : Bool := c.isDigit

/-- Python `\s` (ASCII whitespace). -/
def isSpaceCh (c : Char) : Bool :=
  c == ' ' || c == '\t' || c == '\n' || c == '\r' || c == '\x0b' || c == '\x0c'

/-- The class `[.\-\s]` separating phone digit groups. -/
def isPhoneSep (c : Char) : Bool := c == '.' || c == '-' || isSpaceCh c

/-- Fixed repetition `r{n}`. -/
def repRe (r : Re) : Nat → Re
  | 0 => .eps
  | n + 1 => .seq r (repRe r n)

/-- Pattern `p+` for a character class `p`, i.e. one occurrence then a greedy star. -/
def plusRe (p : Char → Bool) : Re := .seq (.cls p) (.star p)

/-- A literal character. -/
def litCh (c : Char) : Re := .cls (fun a => a == c)

/-- A case-insensitive literal character (`re.IGNORECASE`); ASCII folding. -/
def litChCI (c : Char) : Re := .cls (fun a => a.toLower == c.toLower)

/-- A literal string. -/
def strRe (s : List Char) : Re := s.foldr (fun c r => .seq (litCh c) r) .eps

/-- A case-insensitive literal string. -/
def strReCI (s : List Char) : Re := s.foldr (fun c r => .seq (litChCI c) r) .eps

/-- Ordered alternation of a list of patterns (first preferred). -/
def altList : List Re → Re
  | [] => .eps
  | [r] => r
  | r :: rest => .alt r (altList rest)

/-- One phone digit group `(?:[.\-\s]?\d{2})`. -/
def phoneGroup : Re :=
  .seq (.opt (.cls isPhoneSep)) (.seq (.cls isDigitCh) (.cls isDigitCh))

/-- Pattern `r'\b0[1-9](?:[.\-\s]?\d{2}){4}\b'` (first phone pattern). -/
def phone1Re : Re :=
  .seq .bnd (.seq (litCh '0')
    (.seq (.cls (fun c => '1' ≤ c && c ≤ '9')) (.seq (repRe phoneGroup 4) .bnd)))

/-- Pattern `r'\+33[1-9](?:[.\-\s]?\d{2}){4}\b'` (second phone pattern). -/
def phone2Re : Re :=
  .seq (litCh '+') (.seq (litCh '3') (.seq (litCh '3')
    (.seq (.cls (fun c => '1' ≤ c && c ≤ '9')) (.seq (repRe phoneGroup 4) .bnd))))

/-- Class `[A-Za-z0-9._%+-]` (email local part). -/
def isEmailLocalCh (c : Char) : Bool :=
  c.isAlphanum || c == '.' || c == '_' || c == '%' || c == '+' || c == '-'

/-- Class `[A-Za-z0-9.-]` (email domain). -/
def isEmailDomCh (c : Char) : Bool := c.isAlphanum || c == '.' || c == '-'

/-- Class `[A-Z|a-z]` (email final label; the source class contains a literal
pipe character). -/
def isEmailTldCh (c : Char) : Bool := c.isUpper || c == '|' || c.isLower

/-- Pattern `r'\b[A-Za-z0-9._%+-]+@[A-Za-z0-9.-]+\.[A-Z|a-z]{2,}\b'`. -/
def emailRe : Re :=
  .seq .bnd (.seq (plusRe isEmailLocalCh) (.seq (litCh '@')
    (.seq (plusRe isEmailDomCh) (.seq (litCh '.')
      (.seq (.cls isEmailTldCh) (.seq (.cls isEmailTldCh)
        (.seq (.star isEmailTldCh) .bnd)))))))

/-- Pattern `r'\b\d{14}\b'` (SIRET). -/
def siretRe : Re := .seq .bnd (.seq (repRe (.cls isDigitCh) 14) .bnd)

/-- Pattern `r'\b[12]\d{12}\b'` (French SSN). -/
def ssnRe : Re :=
  .seq .bnd (.seq (.cls (fun c => c == '1' || c == '2'))
    (.seq (repRe (.cls isDigitCh) 12) .bnd))

/-- The street-type alternation of the first address pattern. -/
def streetAlt : Re :=
  altList [strReCI "rue".toList, strReCI "avenue".toList, strReCI "boulevard".toList,
    strReCI "place".toList, strReCI "impasse".toList, strReCI "allée".toList,
    strReCI "chemin".toList, strReCI "route".toList]

/-- Class `[A-Za-z\s]`. -/
def isLetterSpaceCh (c : Char) : Bool := c.isAlpha || isSpaceCh c

/-- Pattern `r'\b\d+\s+(?:rue|avenue|boulevard|place|impasse|allée|chemin|route)\s+[A-Za-z\s]+\b'`,
compiled with `re.IGNORECASE`. -/
def addr1Re : Re :=
  .seq .bnd (.seq (plusRe isDigitCh) (.seq (plusRe isSpaceCh)
    (.seq streetAlt (.seq (plusRe isSpaceCh) (.seq (plusRe isLetterSpaceCh) .bnd)))))

/-- Class `[a-zA-Z\s-]`. -/
def isLetterSpaceDashCh (c : Char) : Bool := c.isAlpha || isSpaceCh c || c == '-'

/-- Pattern `r'\b\d{5}\s+[A-Z][a-zA-Z\s-]+\b'` with `re.IGNORECASE`: the class `[A-Z]`
under IGNORECASE matches either case, hence `Char.isAlpha`. -/
def addr2Re : Re :=
  .seq .bnd (.seq (repRe (.cls isDigitCh) 5) (.seq (plusRe isSpaceCh)
    (.seq (.cls Char.isAlpha) (.seq (plusRe isLetterSpaceDashCh) .bnd))))

/-- Pattern `r'\bRG\s+\d+/\d+\b'` with `re.IGNORECASE`. -/
def legal1Re : Re :=
  .seq .bnd (.seq (strReCI "RG".toList) (.seq (plusRe isSpaceCh)
    (.seq (plusRe isDigitCh) (.seq (litCh '/') (.seq (plusRe isDigitCh) .bnd)))))

/-- Pattern `r'\bdossier\s+n°?\s*\d+X\d+\b'` where `X` is the two-character class of
dash and slash, with `re.IGNORECASE`.  (The class is spelled out because its
raw text would close this comment.) -/
def legal2Re : Re :=
  .seq .bnd (.seq (strReCI "dossier".toList) (.seq (plusRe isSpaceCh)
    (.seq (litChCI 'n') (.seq (.opt (litCh '°')) (.seq (.star isSpaceCh)
      (.seq (plusRe isDigitCh)
        (.seq (.cls (fun c => c == '-' || c == '/')) (.seq (plusRe isDigitCh) .bnd))))))))

/-- Pattern `r'\barticle\s+\d+(?:-\d+)?\b'` with `re.IGNORECASE`. -/
def legal3Re : Re :=
  .seq .bnd (.seq (strReCI "article".toList) (.seq (plusRe isSpaceCh)
    (.seq (plusRe isDigitCh) (.seq (.opt (.seq (litCh '-') (plusRe isDigitCh))) .bnd))))

/-! ## `RegexService.extract_entities` (server.py lines 144-218) -/

/-- Python slice `text[s:e]` (`match.group()` of a match spanning `[s, e)`). -/
def sliceStr (text : List Char) (s e : Nat) : List Char := (text.drop s).take (e - s)

/-- Model of `RegexService._generate_phone_replacement` (server.py lines 220-221). -/
def generate_phone_replacement : List Char := "06 XX XX XX XX".toList

/-- Build the entity the extractor appends for a match `(start, end)`. -/
def mkRegexEntity (text : List Char) (ty : EntityType) (repl : List Char)
    (m : Nat × Nat) : Entity :=
  { text := sliceStr text m.1 m.2
    type := ty
    source := .REGEX
    confidence := 1
    replacement := repl
    positions := [⟨m.1, m.2⟩]
    selected := true }

/-- Model of `RegexService.extract_entities`: the pattern groups appended in source
order — phones, emails, Luhn-gated SIRET, SSN, addresses, legal references. -/
def extract_entities (text : List Char) : List Entity :=
  (finditer text phone1Re).map (mkRegexEntity text .phone generate_phone_replacement)
    ++ (finditer text phone2Re).map (mkRegexEntity text .phone generate_phone_replacement)
    ++ (finditer text emailRe).map
        (mkRegexEntity text .email "[email.anonymise@exemple.fr]".toList)
    ++ ((finditer text siretRe).filter
          (fun m => luhn_check (sliceStr text m.1 m.2))).map
        (mkRegexEntity text .siret "[SIRET Anonymisé]".toList)
    ++ (finditer text ssnRe).map
        (mkRegexEntity text .ssn "[N° Sécurité Sociale Anonymisé]".toList)
    ++ (finditer text addr1Re).map
        (mkRegexEntity text .address "[Adresse Anonymisée]".toList)
    ++ (finditer text addr2Re).map
        (mkRegexEntity text .address "[Adresse Anonymisée]".toList)
    ++ (finditer text legal1Re).map
        (mkRegexEntity text .legal "[Référence Anonymisée]".toList)
    ++ (finditer text legal2Re).map
        (mkRegexEntity text .legal "[Référence Anonymisée]".toList)
    ++ (finditer text legal3Re).map
        (mkRegexEntity text .legal "[Référence Anonymisée]".toList)

/-! ## `NERService` (server.py lines 223-259)

The spaCy model call `self.nlp(text)` is external; its output `doc.ents` is
taken as a parameter, one `SpacyEnt` per model span.  The adapter state holds
the instance fields `person_counter` and `org_counter`, which the source
initialises once at service construction (`ner_service = NERService()`,
line 312) and mutates across calls. -/

/-- One span of the external model's output (`ent` in the source).  `conf` is
`ent._.confidence` when the model reports one (`hasattr` check in the source);
the source's rounding of the float to two decimals is not modelled. -/
structure SpacyEnt where
  text : List Char
  label : List Char
  start_char : Nat
  end_char : Nat
  conf : Option ℚ
  deriving DecidableEq, Repr

/-- The mutable instance fields of `NERService`. -/
structure NERState where
  person_counter : Nat
  org_counter : Nat
  deriving DecidableEq, Repr

/-- Fresh `NERService()` state: both counters start at 1 (lines 226-227). -/
def nerInitState : NERState := ⟨1, 1⟩

/-- Model of `NERService.extract_entities`, threading the instance counters explicitly:
returns the produced entities and the updated counters. -/
def ner_extract_entities (st : NERState) (ents : List SpacyEnt) :
    List Entity × NERState :=
  ents.foldl
    (fun acc ent =>
      if ent.label = "PER".toList then
        (acc.1 ++ [{ text := ent.text
                     type := .person
                     source := .NER
                     confidence := ent.conf.getD (9 / 10)
                     replacement :=
                       "Personne ".toList ++ [Char.ofNat (64 + acc.2.person_counter)]
                     positions := [⟨ent.start_char, ent.end_char⟩]
                     selected := true }],
         { acc.2 with person_counter := acc.2.person_counter + 1 })
      else if ent.label = "ORG".toList then
        (acc.1 ++ [{ text := ent.text
                     type := .organization
                     source := .NER
                     confidence := ent.conf.getD (17 / 20)
                     replacement :=
                       "Organisation ".toList ++ [Char.ofNat (64 + acc.2.org_counter)]
                     positions := [⟨ent.start_char, ent.end_char⟩]
                     selected := true }],
         { acc.2 with org_counter := acc.2.org_counter + 1 })
      else acc)
    ([], st)

/-! ## `OllamaService` (server.py lines 261-289) -/

/-- Model of `OllamaService.extract_entities` (lines 286-289): the placeholder returns
an empty list regardless of the configuration and text. -/
def ollama_extract_entities (_config : OllamaConfig) (_text : List Char) :
    List Entity := []

/-! ## Entity deduplication and `process_document` (server.py lines 328-367) -/

/-- The dedup key `(entity.text, entity.positions[0].start, entity.positions[0].end)`
(line 353). -/
def entityKey (e : Entity) : List Char × Nat × Nat :=
  (e.text, (pos0 e).start, (pos0 e).stop)

/-- The dedup loop of `process_document` (lines 350-356): `seen` is the set of
keys already kept, modelled as the list of keys in insertion order. -/
def dedupGo (seen : List (List Char × Nat × Nat)) : List Entity → List Entity
  | [] => []
  | e :: rest =>
    if entityKey e ∈ seen then dedupGo seen rest
    else e :: dedupGo (entityKey e :: seen) rest

/-- Deduplication as run by `process_document` over the pooled entities. -/
def dedup (entities : List Entity) : List Entity := dedupGo [] entities

/-- Model of `process_document` (lines 328-367).  `spacy` models the truthiness of the
module-level `nlp`; `nerOut` is what `ner_service.extract_entities(content)`
returns in advanced mode (external model output; the NER counters do not
affect which entities are pooled, only their replacement strings).
`processing_time` (wall clock) is not modelled. -/
def process_document (content : List Char) (mode : ProcessingMode)
    (spacy : Bool) (nerOut : List Entity) : ProcessingResponse :=
  let regex_entities := extract_entities content
  let all_entities :=
    if mode = ProcessingMode.advanced ∧ spacy = true then regex_entities ++ nerOut
    else regex_entities
  let unique_entities := dedup all_entities
  { entities := unique_entities
    mode_used := mode
    total_occurrences := unique_entities.length
    spacy_available := spacy
    ollama_available := false }

/-! ## `DocumentProcessor.apply_anonymization` (server.py lines 292-308) -/

/-- The sort key comparison of line 297-301: Python's stable `sorted` with
`key=lambda x: x.positions[0].start, reverse=True` places `a` before `b`
exactly when `start b ≤ start a` (equal keys keep their original order, which
stable insertion on this relation reproduces). -/
def descRel (a b : Entity) : Prop := (pos0 b).start ≤ (pos0 a).start

instance : DecidableRel descRel := fun _ _ => Nat.decLe _ _

instance : IsTotal Entity descRel := ⟨fun a b => Nat.le_total (pos0 b).start (pos0 a).start⟩

instance : IsTrans Entity descRel := ⟨fun _ _ _ h1 h2 => le_trans h2 h1⟩

/-- One splice step of the rewrite loop (line 306):
`result[:pos.start] + entity.replacement + result[pos.end:]`. -/
def spliceEntity (result : List Char) (e : Entity) : List Char :=
  result.take (pos0 e).start ++ e.replacement ++ result.drop (pos0 e).stop

/-- Model of `DocumentProcessor.apply_anonymization`: filter to the selected entities,
sort them by first-position start descending (stable), then splice each in
turn into the evolving text. -/
def apply_anonymization (content : List Char) (entities : List Entity) : List Char :=
  let sorted_entities := (entities.filter (fun e => e.selected)).insertionSort descRel
  sorted_entities.foldl spliceEntity content

/-! ## Rewrite correctness theory (claims about `apply_anonymization`) -/

/-- Two entities' first spans do not intersect. -/
def NonOverlap (a b : Entity) : Prop :=
  (pos0 a).stop ≤ (pos0 b).start ∨ (pos0 b).stop ≤ (pos0 a).start

instance : DecidableRel NonOverlap := fun _ _ => inferInstanceAs (Decidable (_ ∨ _))

/-- The entities' first spans follow each other in ascending order: each span
starts no earlier than `p`, is well-formed, and ends before the next one
starts; the final bound keeps every offset at most `n`. -/
def SpanChain (p n : Nat) : List Entity → Prop
  | [] => p ≤ n
  | e :: rest => p ≤ (pos0 e).start ∧ (pos0 e).start ≤ (pos0 e).stop ∧
      SpanChain (pos0 e).stop n rest

/-- The expected rewrite output for spans listed in ascending order: the
original text from `p` up to each span's start, then the span's replacement,
then the rest; the suffix from `p` when no spans remain.  This is the formal
reading of "the original text with every selected span replaced exactly by its
replacement". -/
def chunksFrom (text : List Char) (p : Nat) : List Entity → List Char
  | [] => text.drop p
  | e :: rest =>
      (text.drop p).take ((pos0 e).start - p) ++ e.replacement
        ++ chunksFrom text (pos0 e).stop rest

/-- Total length of the entities' first spans. -/
def spanSum (l : List Entity) : Nat :=
  (l.map (fun e => (pos0 e).stop - (pos0 e).start)).sum

/-- Total length of the entities' replacement strings. -/
def replSum (l : List Entity) : Nat := (l.map (fun e => e.replacement.length)).sum

/-- Sample selected entity used by concrete witnesses. -/
def wit1 : Entity :=
  { text := "b".toList, type := .phone, source := .REGEX, confidence := 1,
    replacement := "XY".toList, positions := [⟨1, 2⟩], selected := true }

/-- Second sample selected entity used by concrete witnesses. -/
def wit2 : Entity :=
  { text := "e".toList, type := .email, source := .REGEX, confidence := 1,
    replacement := "Z".toList, positions := [⟨4, 5⟩], selected := true }

/-- Strict descending order on first-span starts. -/
def strictDesc (a b : Entity) : Prop := (pos0 b).start < (pos0 a).start

instance : IsAntisymm Entity strictDesc :=
  ⟨fun _ _ h1 h2 => absurd (lt_trans h1 h2) (lt_irrefl _)⟩

/-- Specification-side reading of the dedup loop: keep the head, then
recursively keep the first occurrence of every later key, dropping later
entities that repeat an earlier key. -/
def firstOccur : List Entity → List Entity
  | [] => []
  | e :: rest =>
      e :: firstOccur (rest.filter (fun x => decide (entityKey x ≠ entityKey e)))
  termination_by l => l.length
  decreasing_by
    simp only [List.length_cons]
    exact Nat.lt_succ_of_le (List.length_filter_le _ _)

/-- A single model span labelled `PER`, as two successive requests would
present it. -/
def spanJean : SpacyEnt :=
  { text := "Jean Dupont".toList, label := "PER".toList,
    start_char := 0, end_char := 11, conf := none }

/-- The spec §8 sample input. -/
def c9Text : List Char := "Contactez-moi au 06.12.34.56.78 ou jean@exemple.fr.".toList

/-- The phone entity the extractor emits on `c9Text`. -/
def c9Phone : Entity :=
  { text := "06.12.34.56.78".toList, type := .phone, source := .REGEX,
    confidence := 1, replacement := "06 XX XX XX XX".toList,
    positions := [⟨17, 31⟩], selected := true }

/-- The email entity the extractor emits on `c9Text`. -/
def c9Email : Entity :=
  { text := "jean@exemple.fr".toList, type := .email, source := .REGEX,
    confidence := 1, replacement := "[email.anonymise@exemple.fr]".toList,
    positions := [⟨35, 50⟩], selected := true }

/-- The character at offset `j` exists and satisfies `p`. -/
def charSat (p : Char → Bool) (text : List Char) (j : Nat) : Bool :=
  match text[j]? with
  | some c => p c
  | none => false

/-- A run of `k` consecutive characters of class `p` starting at offset `i`. -/
def clsRunB (p : Char → Bool) (text : List Char) : Nat → Nat → Bool
  | _, 0 => true
  | i, k + 1 => charSat p text i && clsRunB p text (i + 1) k

/-- The character at offset `j` exists and is a digit. -/
def digitAt (text : List Char) (j : Nat) : Bool := charSat isDigitCh text j

/-- The pattern `\b\d{14}\b` matches at offset `i`: a boundary, fourteen
digits, a boundary. -/
def siretAt (text : List Char) (i : Nat) : Bool :=
  isBoundary text i && clsRunB isDigitCh text i 14 && isBoundary text (i + 14)

/-- Claim C2's wording: a *maximal run of exactly 14 consecutive digits* at
offset `i` — fourteen digits neither preceded nor followed by another digit.
Stated from the claim, to be compared with the source's word-boundary
behaviour (`siretAt`). -/
def maximalDigitRun14 (text : List Char) (i : Nat) : Bool :=
  clsRunB isDigitCh text i 14 && (i == 0 || !digitAt text (i - 1))
    && !digitAt text (i + 14)

lemma everyOther_cons {α : Type} (a : α) (l : List α) :
    everyOther (a :: l) = a :: everyOther (l.drop 1) := by
  cases l <;> simp [everyOther]

lemma everyOther_sum_eq_claimGo : ∀ l : List Nat,
    (everyOther l).sum + ((everyOther (l.drop 1)).map (fun d => digitsSum (d * 2))).sum
      = claimLuhnGo l
  | [] => by simp [everyOther, claimLuhnGo]
  | [a] => by simp [everyOther, claimLuhnGo]
  | a :: b :: rest => by
    have ih := everyOther_sum_eq_claimGo rest
    simp only [everyOther, claimLuhnGo, List.drop, List.sum_cons, List.map_cons,
      everyOther_cons b rest] at ih ⊢
    omega

/-- Claim C3: `luhn_check` accepts a numeric string exactly when the spec §4.2
total — odd positions from the right added as-is, even positions doubled and
digit-summed — is divisible by 10. -/
theorem luhn_check_iff_claim_total (number : List Char)
    (_hdig : ∀ c ∈ number, c.isDigit = true) :
    luhn_check number = true ↔ claimLuhnTotal number % 10 = 0 := by
  unfold luhn_check claimLuhnTotal
  rw [← everyOther_sum_eq_claimGo]
  simp

/-- Witness for C3 at the checksum-valid SIRET `"73282932000074"`. -/
theorem luhn_check_iff_claim_total_witness :
    (∀ c ∈ ("73282932000074".toList), c.isDigit = true) ∧
      (luhn_check ("73282932000074".toList) = true ↔
        claimLuhnTotal ("73282932000074".toList) % 10 = 0) :=
  ⟨by decide, luhn_check_iff_claim_total ("73282932000074".toList) (by decide)⟩

lemma spanChain_le {p n : Nat} : ∀ {l : List Entity}, SpanChain p n l → p ≤ n
  | [], h => h
  | _ :: _, h => le_trans h.1 (le_trans h.2.1 (spanChain_le h.2.2))

/-- Core rewrite lemma: processing an ascending chain of spans back to front
(the `foldr`) produces the untouched prefix up to `p` followed by the
replaced-chunks reading of the text. -/
lemma foldr_spliceEntity_eq_chunks (text : List Char) :
    ∀ (l : List Entity) (p : Nat), SpanChain p text.length l →
      l.foldr (fun e acc => spliceEntity acc e) text = text.take p ++ chunksFrom text p l
  | [], p, h => by simp [chunksFrom]
  | e :: rest, p, h => by
    obtain ⟨hps, hss, hchain⟩ := h
    have hstop : (pos0 e).stop ≤ text.length := spanChain_le hchain
    have ih := foldr_spliceEntity_eq_chunks text rest (pos0 e).stop hchain
    have hlen : (text.take (pos0 e).stop).length = (pos0 e).stop := by
      simp [List.length_take, Nat.min_eq_left hstop]
    rw [List.foldr_cons, ih]
    simp only [spliceEntity]
    rw [List.take_append_of_le_length (by omega),
      List.drop_append_of_le_length (le_of_eq hlen.symm),
      List.take_take, Nat.min_eq_left hss,
      List.drop_eq_nil_of_le (le_of_eq hlen)]
    have htake : text.take (pos0 e).start
        = text.take p ++ (text.drop p).take ((pos0 e).start - p) := by
      rw [← List.take_add, Nat.add_sub_cancel' hps]
    rw [htake, chunksFrom]
    simp

lemma chunks_length (text : List Char) :
    ∀ (l : List Entity) (p : Nat), SpanChain p text.length l →
      (chunksFrom text p l).length + p + spanSum l = text.length + replSum l
  | [], p, h => by
    have hpn : p ≤ text.length := h
    simp only [chunksFrom, spanSum, replSum, List.map_nil, List.sum_nil,
      List.length_drop]
    omega
  | e :: rest, p, h => by
    obtain ⟨hps, hss, hchain⟩ := h
    have hstop : (pos0 e).stop ≤ text.length := spanChain_le hchain
    have ih := chunks_length text rest (pos0 e).stop hchain
    simp only [chunksFrom, spanSum, replSum, List.map_cons, List.sum_cons,
      List.length_append, List.length_take, List.length_drop] at ih ⊢
    omega

lemma spanChain_of_sorted (n : Nat) :
    ∀ (l : List Entity) (p : Nat),
      l.Sorted (fun a b => (pos0 a).start ≤ (pos0 b).start) →
      l.Pairwise NonOverlap →
      (∀ e ∈ l, (pos0 e).start < (pos0 e).stop ∧ (pos0 e).stop ≤ n) →
      p ≤ n → (∀ e ∈ l, p ≤ (pos0 e).start) →
      SpanChain p n l
  | [], _, _, _, _, hpn, _ => hpn
  | e :: rest, p, hsort, hpw, hwf, _, hp => by
    obtain ⟨hrel, hsort2⟩ := List.sorted_cons.mp hsort
    obtain ⟨hnov, hpw2⟩ := List.pairwise_cons.mp hpw
    refine ⟨hp e (by simp), le_of_lt (hwf e (by simp)).1, ?_⟩
    apply spanChain_of_sorted n rest (pos0 e).stop hsort2 hpw2
      (fun x hx => hwf x (List.mem_cons_of_mem _ hx)) (hwf e (by simp)).2
    intro x hx
    have h1 := hrel x hx
    have h2 := (hwf x (List.mem_cons_of_mem _ hx)).1
    rcases hnov x hx with h | h
    · exact h
    · omega

/-- Claim C1: On selected entities whose first spans are well-formed, lie within
the text and are pairwise non-overlapping, `apply_anonymization` — which
filters to `selected = true` and splices in descending order of
`positions[0].start` — returns the original text with every selected span
replaced exactly by its replacement (the `chunksFrom` reading over the spans
in ascending order), and the output length satisfies
`len(result) = len(original) - Σ span length + Σ replacement length`,
stated additively. -/
theorem apply_anonymization_correct (content : List Char) (entities : List Entity)
    (hwf : ∀ e ∈ entities.filter (fun e => e.selected),
      (pos0 e).start < (pos0 e).stop ∧ (pos0 e).stop ≤ content.length)
    (hsep : (entities.filter (fun e => e.selected)).Pairwise NonOverlap) :
    apply_anonymization content entities
      = chunksFrom content 0
          (((entities.filter (fun e => e.selected)).insertionSort descRel).reverse) ∧
    (apply_anonymization content entities).length
        + spanSum (entities.filter (fun e => e.selected))
      = content.length + replSum (entities.filter (fun e => e.selected)) := by
  set F := entities.filter (fun e => e.selected) with hF
  set S := F.insertionSort descRel with hS
  set A := S.reverse with hA
  have hpermS : S.Perm F := List.perm_insertionSort descRel F
  have hpermA : A.Perm F := (List.reverse_perm S).trans hpermS
  have hmemA : ∀ {e : Entity}, e ∈ A → e ∈ F := fun h => hpermA.mem_iff.mp h
  have hsortS : S.Sorted descRel := List.sorted_insertionSort descRel F
  have hsortA : A.Sorted (fun a b => (pos0 a).start ≤ (pos0 b).start) := by
    rw [List.Sorted, hA, List.pairwise_reverse]
    exact hsortS
  have hnovSym : ∀ {x y : Entity}, NonOverlap x y → NonOverlap y x :=
    fun h => Or.symm h
  have hpwA : A.Pairwise NonOverlap := by
    rw [hA, List.pairwise_reverse]
    exact ((List.Perm.pairwise_iff hnovSym hpermS).mpr hsep).imp hnovSym
  have hchain : SpanChain 0 content.length A :=
    spanChain_of_sorted content.length A 0 hsortA hpwA
      (fun e he => hwf e (hmemA he)) (Nat.zero_le _) (fun _ _ => Nat.zero_le _)
  have happ : apply_anonymization content entities
      = A.foldr (fun e acc => spliceEntity acc e) content := by
    show S.foldl spliceEntity content = _
    rw [← List.reverse_reverse S, ← hA, List.foldl_reverse]
  have hmain := foldr_spliceEntity_eq_chunks content A 0 hchain
  have hlen := chunks_length content A 0 hchain
  have hspan : spanSum A = spanSum F := (hpermA.map _).sum_eq
  have hrepl : replSum A = replSum F := (hpermA.map _).sum_eq
  constructor
  · rw [happ, hmain]
    simp
  · rw [happ, hmain]
    simp only [List.take_zero, List.nil_append] at hmain ⊢
    omega

/-- Witness for C1 on the text `"abcdef"` with two disjoint selected spans. -/
theorem apply_anonymization_correct_witness :
    ((∀ e ∈ [wit1, wit2].filter (fun e => e.selected),
        (pos0 e).start < (pos0 e).stop ∧ (pos0 e).stop ≤ ("abcdef".toList).length) ∧
      ([wit1, wit2].filter (fun e => e.selected)).Pairwise NonOverlap) ∧
    (apply_anonymization "abcdef".toList [wit1, wit2]
        = chunksFrom "abcdef".toList 0
            ((([wit1, wit2].filter (fun e => e.selected)).insertionSort descRel).reverse) ∧
      (apply_anonymization "abcdef".toList [wit1, wit2]).length
          + spanSum ([wit1, wit2].filter (fun e => e.selected))
        = ("abcdef".toList).length + replSum ([wit1, wit2].filter (fun e => e.selected))) :=
  ⟨⟨by decide, by decide⟩,
    apply_anonymization_correct "abcdef".toList [wit1, wit2] (by decide) (by decide)⟩

lemma sorted_strictDesc_of_filter {l : List Entity}
    (hwf : ∀ e ∈ l.filter (fun e => e.selected), (pos0 e).start < (pos0 e).stop)
    (hsep : (l.filter (fun e => e.selected)).Pairwise NonOverlap) :
    ((l.filter (fun e => e.selected)).insertionSort descRel).Sorted strictDesc := by
  set F := l.filter (fun e => e.selected) with hF
  have hne : F.Pairwise (fun a b => (pos0 a).start ≠ (pos0 b).start) := by
    refine hsep.imp_of_mem (fun ha hb h => ?_)
    have h1 := hwf _ ha
    have h2 := hwf _ hb
    rcases h with h | h <;> omega
  have hperm := List.perm_insertionSort descRel F
  have hneS := (List.Perm.pairwise_iff (fun h => h.symm) hperm).mpr hne
  have hsortS : (F.insertionSort descRel).Sorted descRel :=
    List.sorted_insertionSort descRel F
  exact (hsortS.and hneS).imp (fun h => lt_of_le_of_ne h.1 h.2.symm)

/-- Claim C7: Under pairwise non-overlapping well-formed selected spans, the
rewrite output does not depend on the order of the entity list: any
permutation of the input list yields the identical output text. -/
theorem apply_anonymization_perm_invariant (content : List Char)
    (l1 l2 : List Entity) (hperm : l1.Perm l2)
    (hwf : ∀ e ∈ l1.filter (fun e => e.selected), (pos0 e).start < (pos0 e).stop)
    (hsep : (l1.filter (fun e => e.selected)).Pairwise NonOverlap) :
    apply_anonymization content l1 = apply_anonymization content l2 := by
  have hpermF : (l1.filter (fun e => e.selected)).Perm (l2.filter (fun e => e.selected)) :=
    hperm.filter _
  have hwf2 : ∀ e ∈ l2.filter (fun e => e.selected), (pos0 e).start < (pos0 e).stop :=
    fun e he => hwf e (hpermF.mem_iff.mpr he)
  have hsep2 : (l2.filter (fun e => e.selected)).Pairwise NonOverlap :=
    (List.Perm.pairwise_iff (fun h => Or.symm h) hpermF).mp hsep
  have hs1 := sorted_strictDesc_of_filter hwf hsep
  have hs2 := sorted_strictDesc_of_filter hwf2 hsep2
  have hpermS : ((l1.filter (fun e => e.selected)).insertionSort descRel).Perm
      ((l2.filter (fun e => e.selected)).insertionSort descRel) :=
    (List.perm_insertionSort descRel _).trans
      (hpermF.trans (List.perm_insertionSort descRel _).symm)
  have hSeq := List.eq_of_perm_of_sorted hpermS hs1 hs2
  show ((l1.filter (fun e => e.selected)).insertionSort descRel).foldl spliceEntity content
    = ((l2.filter (fun e => e.selected)).insertionSort descRel).foldl spliceEntity content
  rw [hSeq]

/-- Witness for C7: swapping the two-entity list leaves the output unchanged. -/
theorem apply_anonymization_perm_invariant_witness :
    (([wit1, wit2] : List Entity).Perm [wit2, wit1] ∧
      (∀ e ∈ [wit1, wit2].filter (fun e => e.selected),
        (pos0 e).start < (pos0 e).stop) ∧
      ([wit1, wit2].filter (fun e => e.selected)).Pairwise NonOverlap) ∧
    apply_anonymization "abcdef".toList [wit1, wit2]
      = apply_anonymization "abcdef".toList [wit2, wit1] :=
  ⟨⟨List.Perm.swap wit2 wit1 [], by decide, by decide⟩,
    apply_anonymization_perm_invariant "abcdef".toList [wit1, wit2] [wit2, wit1]
      (List.Perm.swap wit2 wit1 []) (by decide) (by decide)⟩

/-! ## Deduplication theory (claims C4 and C8) -/

lemma dedupGo_eq_firstOccur :
    ∀ (l : List Entity) (seen : List (List Char × Nat × Nat)),
      dedupGo seen l = firstOccur (l.filter (fun e => decide (entityKey e ∉ seen)))
  | [], _ => by simp [dedupGo, firstOccur]
  | e :: rest, seen => by
    by_cases hmem : entityKey e ∈ seen
    · rw [dedupGo, if_pos hmem, dedupGo_eq_firstOccur rest seen]
      simp [List.filter_cons, hmem]
    · rw [dedupGo, if_neg hmem, dedupGo_eq_firstOccur rest (entityKey e :: seen)]
      have hfil : (rest.filter (fun x => decide (entityKey x ∉ seen))).filter
            (fun x => decide (entityKey x ≠ entityKey e))
          = rest.filter (fun x => decide (entityKey x ∉ entityKey e :: seen)) := by
        rw [List.filter_filter]
        apply List.filter_congr
        intro x _
        by_cases h1 : entityKey x = entityKey e <;>
          by_cases h2 : entityKey x ∈ seen <;> simp [h1, h2]
      simp [List.filter_cons, hmem, firstOccur, hfil]

lemma dedup_eq_firstOccur (l : List Entity) : dedup l = firstOccur l := by
  rw [dedup, dedupGo_eq_firstOccur]
  simp

lemma firstOccur_nil : firstOccur [] = [] := by rw [firstOccur]

lemma firstOccur_cons (e : Entity) (rest : List Entity) :
    firstOccur (e :: rest)
      = e :: firstOccur (rest.filter (fun x => decide (entityKey x ≠ entityKey e))) := by
  rw [firstOccur]

lemma firstOccur_sublist : ∀ l : List Entity, (firstOccur l).Sublist l := by
  intro l
  induction l using firstOccur.induct with
  | case1 => rw [firstOccur_nil]
  | case2 e rest ih =>
    rw [firstOccur_cons]
    exact (ih.trans (List.filter_sublist _)).cons₂ e

lemma firstOccur_pairwise :
    ∀ l : List Entity,
      (firstOccur l).Pairwise (fun a b => entityKey a ≠ entityKey b) := by
  intro l
  induction l using firstOccur.induct with
  | case1 => rw [firstOccur_nil]; exact List.Pairwise.nil
  | case2 e rest ih =>
    rw [firstOccur_cons, List.pairwise_cons]
    refine ⟨fun b hb => ?_, ih⟩
    have hbmem := (firstOccur_sublist _).subset hb
    have hne : entityKey b ≠ entityKey e := by
      simpa using List.of_mem_filter hbmem
    exact fun heq => hne heq.symm

lemma firstOccur_eq_self_of_pairwise :
    ∀ l : List Entity,
      l.Pairwise (fun a b => entityKey a ≠ entityKey b) → firstOccur l = l := by
  intro l
  induction l using firstOccur.induct with
  | case1 => intro _; exact firstOccur_nil
  | case2 e rest ih =>
    intro hpw
    obtain ⟨hhead, htail⟩ := List.pairwise_cons.mp hpw
    have hfil : rest.filter (fun x => decide (entityKey x ≠ entityKey e)) = rest := by
      apply List.filter_eq_self.mpr
      intro x hx
      exact decide_eq_true ((hhead x hx).symm)
    rw [firstOccur_cons, hfil]
    rw [hfil] at ih
    rw [ih htail]

lemma firstOccur_covers :
    ∀ l : List Entity, ∀ e ∈ l, ∃ d ∈ firstOccur l, entityKey d = entityKey e := by
  intro l
  induction l using firstOccur.induct with
  | case1 => intro e he; cases he
  | case2 a rest ih =>
    intro x hx
    rw [firstOccur_cons]
    rcases List.mem_cons.mp hx with heq | hrest
    · exact ⟨a, by simp, by rw [heq]⟩
    · by_cases hkey : entityKey x = entityKey a
      · exact ⟨a, by simp, hkey.symm⟩
      · have hin : x ∈ rest.filter (fun y => decide (entityKey y ≠ entityKey a)) :=
          List.mem_filter.mpr ⟨hrest, decide_eq_true hkey⟩
        obtain ⟨d, hd, hdk⟩ := ih x hin
        exact ⟨d, List.mem_cons_of_mem _ hd, hdk⟩

/-- Claim C4: The dedup loop of `process_document` keys each entity by
`(text, positions[0].start, positions[0].end)`, keeps exactly the first
entity observed for each key (`firstOccur`), preserves the emission order
(its output is a sublist of its input), every pooled key stays represented,
and no two surviving entities share a key. -/
theorem dedup_characterization (l : List Entity) :
    dedup l = firstOccur l ∧
    (dedup l).Sublist l ∧
    (dedup l).Pairwise (fun a b => entityKey a ≠ entityKey b) ∧
    (∀ e ∈ l, ∃ d ∈ dedup l, entityKey d = entityKey e) := by
  refine ⟨dedup_eq_firstOccur l, ?_, ?_, ?_⟩
  · rw [dedup_eq_firstOccur]; exact firstOccur_sublist l
  · rw [dedup_eq_firstOccur]; exact firstOccur_pairwise l
  · rw [dedup_eq_firstOccur]; exact firstOccur_covers l

/-- Claim C8: The dedup loop is idempotent: running it on its own output
returns that output unchanged. -/
theorem dedup_idempotent (l : List Entity) : dedup (dedup l) = dedup l := by
  rw [dedup_eq_firstOccur (dedup l),
    firstOccur_eq_self_of_pairwise (dedup l)
      (by rw [dedup_eq_firstOccur]; exact firstOccur_pairwise l)]

/-! ## Mode semantics and response invariants (claims C6 and C10) -/

/-- Claim C6: The `ollama` (llm) mode returns exactly the entity set of
`standard` mode on the same content — the llm branch of `process_document` is
a no-op — and the LLM adapter's `extract_entities` returns the empty sequence
for every configuration and text. -/
theorem ollama_mode_eq_standard :
    (∀ (config : OllamaConfig) (text : List Char),
      ollama_extract_entities config text = []) ∧
    (∀ (content : List Char) (spacy : Bool) (nerOut : List Entity),
      (process_document content ProcessingMode.ollama spacy nerOut).entities
        = (process_document content ProcessingMode.standard spacy nerOut).entities) :=
  ⟨fun _ _ => rfl, fun _ _ _ => rfl⟩

/-- Claim C10: In every response of `process_document`, `total_occurrences`
equals the length of the deduplicated entity list it returns. -/
theorem total_occurrences_eq_length (content : List Char) (mode : ProcessingMode)
    (spacy : Bool) (nerOut : List Entity) :
    (process_document content mode spacy nerOut).total_occurrences
      = (process_document content mode spacy nerOut).entities.length := rfl

/-! ## NER naming counters (claim C5) -/

/-- Claim C5, code behaviour: The source keeps `person_counter` as a field of
the module-level `NERService` instance, so the state returned by a first
extraction call feeds the second: the same text yields replacement
`"Personne A"` on the first call but `"Personne B"` on the second, contradicting
the claim that the counters are scoped to a single extraction call and that
two successive calls produce identical replacement strings. -/
theorem ner_counter_shared_across_calls :
    ((ner_extract_entities nerInitState [spanJean]).1.map (fun e => e.replacement)
        = ["Personne A".toList]) ∧
    ((ner_extract_entities
          (ner_extract_entities nerInitState [spanJean]).2 [spanJean]).1.map
        (fun e => e.replacement)
      = ["Personne B".toList]) ∧
    (ner_extract_entities
        (ner_extract_entities nerInitState [spanJean]).2 [spanJean]).1
      ≠ (ner_extract_entities nerInitState [spanJean]).1 := by
  refine ⟨by decide, by decide, fun h => ?_⟩
  have hmap := congrArg (List.map (fun e => e.replacement)) h
  have h1 : (ner_extract_entities nerInitState [spanJean]).1.map
      (fun e => e.replacement) = ["Personne A".toList] := by decide
  have h2 : ((ner_extract_entities
      (ner_extract_entities nerInitState [spanJean]).2 [spanJean]).1.map
      (fun e => e.replacement)) = ["Personne B".toList] := by decide
  rw [h1, h2] at hmap
  exact absurd hmap (by decide)

/-! ## Concrete standard-mode scenario (claim C9) -/

/-- Claim C9: Standard-mode processing of the sample sentence returns exactly the
phone entity (`"06.12.34.56.78"` → `"06 XX XX XX XX"`) and the email entity
(`"jean@exemple.fr"` → `"[email.anonymise@exemple.fr]"`), and rewriting with
both selected produces the expected redacted sentence. -/
theorem standard_mode_concrete_scenario :
    (process_document c9Text ProcessingMode.standard false []).entities
        = [c9Phone, c9Email] ∧
    apply_anonymization c9Text
        (process_document c9Text ProcessingMode.standard false []).entities
      = "Contactez-moi au 06 XX XX XX XX ou [email.anonymise@exemple.fr].".toList := by
  constructor
  · decide
  · decide

/-! ## SIRET detection characterization (claim C2) -/

lemma charSat_lt_length {p : Char → Bool} {text : List Char} {j : Nat}
    (h : charSat p text j = true) : j < text.length := by
  unfold charSat at h
  rcases hj : text[j]? with _ | c
  · rw [hj] at h; exact absurd h (by simp)
  · exact (List.getElem?_eq_some.mp hj).1

lemma clsRunB_sat {p : Char → Bool} {text : List Char} :
    ∀ (k i : Nat), clsRunB p text i k = true →
      ∀ j, i ≤ j → j < i + k → charSat p text j = true
  | 0, i, _, j, h1, h2 => absurd (lt_of_le_of_lt h1 h2) (by omega)
  | k + 1, i, h, j, h1, h2 => by
    rw [clsRunB, Bool.and_eq_true] at h
    rcases eq_or_lt_of_le h1 with rfl | hlt
    · exact h.1
    · exact clsRunB_sat k (i + 1) h.2 j hlt (by omega)

lemma mrun_seq (text : List Char) (r1 r2 : Re) (i : Nat) (k : Nat → Option Nat) :
    mrun text (.seq r1 r2) i k = mrun text r1 i (fun j => mrun text r2 j k) := rfl

lemma mrun_bnd (text : List Char) (i : Nat) (k : Nat → Option Nat) :
    mrun text .bnd i k = if isBoundary text i = true then k i else none := rfl

lemma mrun_eps (text : List Char) (i : Nat) (k : Nat → Option Nat) :
    mrun text .eps i k = k i := rfl

lemma mrun_cls (text : List Char) (p : Char → Bool) (i : Nat) (k : Nat → Option Nat) :
    mrun text (.cls p) i k = if charSat p text i = true then k (i + 1) else none := by
  show (if h : i < text.length then
      if p (text.get ⟨i, h⟩) then k (i + 1) else none
    else none) = _
  by_cases h : i < text.length
  · rw [dif_pos h]
    have hcs : charSat p text i = p (text.get ⟨i, h⟩) := by
      rw [charSat, List.getElem?_eq_getElem h]
      rfl
    rw [hcs]
  · rw [dif_neg h]
    have hcs : charSat p text i = false := by
      rw [charSat, List.getElem?_eq_none (le_of_not_lt h)]
    rw [hcs]
    simp

lemma mrun_repCls (p : Char → Bool) (text : List Char) (κ : Nat → Option Nat) :
    ∀ (k i : Nat),
      mrun text (repRe (.cls p) k) i κ
        = if clsRunB p text i k = true then κ (i + k) else none
  | 0, i => by simp [repRe, mrun_eps, clsRunB]
  | k + 1, i => by
    have ih := mrun_repCls p text κ k (i + 1)
    simp only [repRe, mrun_seq, mrun_cls, ih]
    by_cases hc : charSat p text i = true
    · rw [if_pos hc]
      have hrun : clsRunB p text i (k + 1) = clsRunB p text (i + 1) k := by
        rw [clsRunB, hc, Bool.true_and]
      rw [hrun, show i + 1 + k = i + (k + 1) by omega]
    · rw [if_neg hc]
      have hrun : clsRunB p text i (k + 1) = false := by
        rw [clsRunB, (by simpa using hc : charSat p text i = false), Bool.false_and]
      rw [hrun]
      simp

lemma mrun_siretRe (text : List Char) (i : Nat) :
    mrun text siretRe i some = if siretAt text i = true then some (i + 14) else none := by
  simp only [siretRe, mrun_seq, mrun_bnd, mrun_repCls]
  by_cases h1 : isBoundary text i = true <;>
    by_cases h2 : clsRunB isDigitCh text i 14 = true <;>
      by_cases h3 : isBoundary text (i + 14) = true <;>
        simp [siretAt, h1, h2, h3]

lemma siretAt_add_le {text : List Char} {i : Nat} (h : siretAt text i = true) :
    i + 14 ≤ text.length := by
  rw [siretAt, Bool.and_eq_true, Bool.and_eq_true] at h
  have := charSat_lt_length (clsRunB_sat 14 i h.1.2 (i + 13) (by omega) (by omega))
  omega

lemma wordAt_of_digitAt {text : List Char} {j : Nat} (h : digitAt text j = true) :
    wordAt text j = true := by
  rw [digitAt, charSat] at h
  rw [wordAt]
  rcases hj : text[j]? with _ | c
  · rw [hj] at h; exact absurd h (by simp)
  · rw [hj] at h
    simp only []
    rw [isWordCh, Char.isAlphanum]
    simp [isDigitCh] at h
    simp [h]

lemma siretAt_not_between {text : List Char} {i : Nat} (h : siretAt text i = true) :
    ∀ q, i < q → q < i + 14 → siretAt text q = false := by
  intro q hq1 hq2
  rw [siretAt, Bool.and_eq_true, Bool.and_eq_true] at h
  have hrun := h.1.2
  have hprev : digitAt text (q - 1) = true :=
    clsRunB_sat 14 i hrun (q - 1) (by omega) (by omega)
  have hcur : digitAt text q = true :=
    clsRunB_sat 14 i hrun q (by omega) (by omega)
  have hbd : isBoundary text q = false := by
    rw [isBoundary, if_neg (by omega : ¬ q = 0),
      wordAt_of_digitAt hprev, wordAt_of_digitAt hcur]
    simp
  simp [siretAt, hbd]

lemma finditerAux_succ_some {text : List Char} {r : Re} {fuel i j : Nat}
    (hle : i ≤ text.length) (hm : mrun text r i some = some j) :
    finditerAux text r (fuel + 1) i
      = (i, j) :: finditerAux text r fuel (if i < j then j else i + 1) := by
  rw [finditerAux, if_pos hle, hm]

lemma finditerAux_succ_none {text : List Char} {r : Re} {fuel i : Nat}
    (hle : i ≤ text.length) (hm : mrun text r i some = none) :
    finditerAux text r (fuel + 1) i = finditerAux text r fuel (i + 1) := by
  rw [finditerAux, if_pos hle, hm]

lemma finditerAux_siret_mem (text : List Char) :
    ∀ (fuel i0 : Nat), text.length + 2 ≤ fuel + i0 → ∀ p q : Nat,
      ((p, q) ∈ finditerAux text siretRe fuel i0 ↔
        (i0 ≤ p ∧ siretAt text p = true ∧ q = p + 14))
  | 0, i0, hfuel, p, q => by
    rw [finditerAux]
    simp only [List.not_mem_nil, false_iff]
    rintro ⟨h1, h2, _⟩
    have := siretAt_add_le h2
    omega
  | fuel + 1, i0, hfuel, p, q => by
    by_cases hle : i0 ≤ text.length
    · by_cases hsA : siretAt text i0 = true
      · rw [finditerAux_succ_some hle (by rw [mrun_siretRe, if_pos hsA]),
          if_pos (by omega : i0 < i0 + 14), List.mem_cons,
          finditerAux_siret_mem text fuel (i0 + 14) (by omega) p q]
        constructor
        · rintro (heq | ⟨hge, hs, hq⟩)
          · rw [Prod.mk.injEq] at heq
            obtain ⟨rfl, rfl⟩ := heq
            exact ⟨le_refl _, hsA, rfl⟩
          · exact ⟨by omega, hs, hq⟩
        · rintro ⟨hge, hs, hq⟩
          by_cases hp0 : p = i0
          · subst hp0
            left
            rw [hq]
          · right
            refine ⟨?_, hs, hq⟩
            by_contra hlt
            push_neg at hlt
            have hfalse := siretAt_not_between hsA p (by omega) (by omega)
            rw [hs] at hfalse
            exact absurd hfalse (by simp)
      · rw [finditerAux_succ_none hle (by rw [mrun_siretRe, if_neg hsA]),
          finditerAux_siret_mem text fuel (i0 + 1) (by omega) p q]
        constructor
        · rintro ⟨h1, h2, h3⟩
          exact ⟨by omega, h2, h3⟩
        · rintro ⟨h1, h2, h3⟩
          refine ⟨?_, h2, h3⟩
          rcases eq_or_lt_of_le h1 with rfl | h
          · exact absurd h2 hsA
          · omega
    · rw [finditerAux, if_neg hle]
      simp only [List.not_mem_nil, false_iff]
      rintro ⟨h1, h2, _⟩
      have := siretAt_add_le h2
      omega

/-- All SIRET-pattern matches found by the scan are exactly the offsets where
`\b\d{14}\b` matches. -/
lemma finditer_siret_mem (text : List Char) (p q : Nat) :
    (p, q) ∈ finditer text siretRe ↔ (siretAt text p = true ∧ q = p + 14) := by
  rw [finditer, finditerAux_siret_mem text (text.length + 2) 0 (by omega) p q]
  simp

/-- Claim C2, counterexample to the claim as stated: A maximal run of exactly 14
consecutive digits whose digit string passes the Luhn checksum need not
produce a SIRET entity: in `"a73282932000074"` the run at offset 1 is
digit-maximal and checksum-valid, yet the extractor emits nothing, because the
preceding letter suppresses the `\b` word boundary. -/
theorem siret_maximal_run_counterexample :
    maximalDigitRun14 "a73282932000074".toList 1 = true ∧
    luhn_check (sliceStr "a73282932000074".toList 1 15) = true ∧
    extract_entities "a73282932000074".toList = [] := by
  refine ⟨by decide, by decide, by decide⟩

/-- Claim C2, amended: The extractor emits a SIRET entity with span
`[i, i+14)` exactly when the pattern `\b\d{14}\b` matches at `i` — fourteen
consecutive digits delimited by word boundaries (text edges or non-word
characters), not merely by non-digits — and the digit string passes the Luhn
checksum; checksum failures yield no entity at all.  In particular
`"73282932000074"` alone is detected and `"12345678901234"` is not. -/
theorem siret_detection_iff :
    (∀ (text : List Char) (i : Nat),
      (∃ e, e ∈ extract_entities text ∧ e.type = EntityType.siret ∧
          e.text = sliceStr text i (i + 14) ∧ e.positions = [⟨i, i + 14⟩])
        ↔ (siretAt text i = true ∧ luhn_check (sliceStr text i (i + 14)) = true)) ∧
    extract_entities "73282932000074".toList
      = [{ text := "73282932000074".toList, type := .siret, source := .REGEX,
           confidence := 1, replacement := "[SIRET Anonymisé]".toList,
           positions := [⟨0, 14⟩], selected := true }] ∧
    extract_entities "12345678901234".toList = [] := by
  refine ⟨?_, by decide, by decide⟩
  intro text i
  constructor
  · rintro ⟨e, hmem, htype, htext, hpos⟩
    rw [extract_entities] at hmem
    simp only [List.mem_append] at hmem
    rcases hmem with ((((((((h | h) | h) | h) | h) | h) | h) | h) | h) | h
    · obtain ⟨m, _, rfl⟩ := List.mem_map.mp h
      exact absurd htype (by simp [mkRegexEntity])
    · obtain ⟨m, _, rfl⟩ := List.mem_map.mp h
      exact absurd htype (by simp [mkRegexEntity])
    · obtain ⟨m, _, rfl⟩ := List.mem_map.mp h
      exact absurd htype (by simp [mkRegexEntity])
    · obtain ⟨m, hm, rfl⟩ := List.mem_map.mp h
      obtain ⟨hfind, hluhn⟩ := List.mem_filter.mp hm
      obtain ⟨hsA, hq⟩ := (finditer_siret_mem text m.1 m.2).mp hfind
      have hpos2 : m.1 = i ∧ m.2 = i + 14 := by
        simpa [mkRegexEntity, Position.mk.injEq] using hpos
      rw [hpos2.1] at hsA hluhn
      rw [hpos2.2] at hluhn
      exact ⟨hsA, hluhn⟩
    · obtain ⟨m, _, rfl⟩ := List.mem_map.mp h
      exact absurd htype (by simp [mkRegexEntity])
    · obtain ⟨m, _, rfl⟩ := List.mem_map.mp h
      exact absurd htype (by simp [mkRegexEntity])
    · obtain ⟨m, _, rfl⟩ := List.mem_map.mp h
      exact absurd htype (by simp [mkRegexEntity])
    · obtain ⟨m, _, rfl⟩ := List.mem_map.mp h
      exact absurd htype (by simp [mkRegexEntity])
    · obtain ⟨m, _, rfl⟩ := List.mem_map.mp h
      exact absurd htype (by simp [mkRegexEntity])
    · obtain ⟨m, _, rfl⟩ := List.mem_map.mp h
      exact absurd htype (by simp [mkRegexEntity])
  · rintro ⟨hsA, hluhn⟩
    refine ⟨mkRegexEntity text .siret "[SIRET Anonymisé]".toList (i, i + 14),
      ?_, rfl, rfl, rfl⟩
    have hmem4 : mkRegexEntity text .siret "[SIRET Anonymisé]".toList (i, i + 14)
        ∈ ((finditer text siretRe).filter
            (fun m => luhn_check (sliceStr text m.1 m.2))).map
          (mkRegexEntity text .siret "[SIRET Anonymisé]".toList) :=
      List.mem_map.mpr ⟨(i, i + 14),
        List.mem_filter.mpr ⟨(finditer_siret_mem text i (i + 14)).mpr ⟨hsA, rfl⟩, hluhn⟩,
        rfl⟩
    rw [extract_entities]
    simp only [List.mem_append]
    exact Or.inl (Or.inl (Or.inl (Or.inl (Or.inl (Or.inl (Or.inr hmem4))))))

end Anonymizer
